import Mathlib

/-!
Shallow embedding of `tui_state_monitor` (src/src/main.rs) in Lean 4, together
with proofs about its state-aggregation core and the control flow of its
ingest loop, render loop and `main`.

Strings are modelled as Lean `String` (a sequence of Unicode scalar values,
matching Rust's `String`); vectors as `List`; the 64-bit `usize` parsing of
`str::parse::<usize>` is modelled with its overflow bound made explicit.
-/

namespace TuiStateMonitor

/-- Mirror of `enum State { Active, Inactive }` (main.rs lines 26-30). -/
inductive State where
  | Active
  | Inactive
deriving DecidableEq, Repr

/-- Mirror of `struct InterfaceState { name, interface_type, state }`
(main.rs lines 19-24), the decoded wire-level report. -/
structure InterfaceState where
  name : String
  interface_type : String
  state : String
deriving DecidableEq, Repr

/-- Mirror of `struct App` (main.rs lines 38-43): three growable sequences of
`State`, one per interface category. -/
structure App where
  server_states : List State
  publisher_states : List State
  subscriber_states : List State
deriving DecidableEq, Repr

/-- Mirror of `App::new` (main.rs lines 46-52): all three sequences empty. -/
def App.new : App :=
  { server_states := [], publisher_states := [], subscriber_states := [] }

/-- Rust `char::is_whitespace`: membership in the Unicode `White_Space` set,
used by `str::split_whitespace`. -/
def isRustWhitespace (c : Char) : Bool :=
  [0x9, 0xA, 0xB, 0xC, 0xD, 0x20, 0x85, 0xA0, 0x1680,
   0x2000, 0x2001, 0x2002, 0x2003, 0x2004, 0x2005, 0x2006, 0x2007,
   0x2008, 0x2009, 0x200A, 0x2028, 0x2029, 0x202F, 0x205F, 0x3000].contains c.toNat

/-- Accumulator-style splitter: `cur` holds the (reversed) current token. -/
def splitWhitespaceAux : List Char → List Char → List (List Char)
  | [], [] => []
  | [], cur => [cur.reverse]
  | c :: cs, cur =>
    if isRustWhitespace c then
      if cur.isEmpty then splitWhitespaceAux cs []
      else cur.reverse :: splitWhitespaceAux cs []
    else splitWhitespaceAux cs (c :: cur)

/-- Rust `str::split_whitespace`: split on Unicode whitespace, discarding
empty tokens. -/
def splitWhitespace (s : String) : List (List Char) :=
  splitWhitespaceAux s.data []

/-- Rust `char::to_digit(10)` restricted to what `from_str_radix` feeds it:
ASCII decimal digit value, or `none`. -/
def digitOf (c : Char) : Option Nat :=
  if '0' ≤ c ∧ c ≤ '9' then some (c.toNat - 48) else none

/-- Largest value of a 64-bit `usize`. -/
def USIZE_MAX : Nat := 2 ^ 64 - 1

/-- The digit-accumulation loop of `from_str_radix`: `checked_mul` by 10 then
`checked_add` of the digit, failing on a non-digit or on overflow. -/
def parseDigits : List Char → Nat → Option Nat
  | [], acc => some acc
  | c :: cs, acc =>
    match digitOf c with
    | none => none
    | some d =>
      if acc * 10 + d ≤ USIZE_MAX then parseDigits cs (acc * 10 + d) else none

/-- Rust `str::parse::<usize>` (radix 10): an empty string or a bare sign is
an error; a leading `+` is skipped; a leading `-` is not a digit for an
unsigned type, so it fails inside the digit loop. -/
def parseUsize : List Char → Option Nat
  | [] => none
  | '+' :: rest => if rest.isEmpty then none else parseDigits rest 0
  | s => parseDigits s 0

/-- The ordinal extraction of `App::update_specific_state` (main.rs lines
82-85): `name.split_whitespace().last().and_then(|n| n.parse::<usize>().ok())`. -/
def ordinalOf (name : String) : Option Nat :=
  (splitWhitespace name).getLast?.bind parseUsize

/-- The ordinal a report carries, defaulting to 0 when extraction fails:
0 is exactly the value on which the update is a no-op. -/
def reportOrdinal (r : InterfaceState) : Nat :=
  (ordinalOf r.name).getD 0

/-- Rust `Vec::resize(n, v)` (main.rs line 89): truncate to `n` when shrinking,
extend with copies of `v` when growing. -/
def resize (l : List State) (n : Nat) (v : State) : List State :=
  if n ≤ l.length then l.take n else l ++ List.replicate (n - l.length) v

/-- Mirror of `App::update_specific_state` (main.rs lines 81-95): parse the
trailing token of `name`; on a positive ordinal `pos`, resize the sequence up
to `pos` if needed and write `state` at index `pos - 1`; otherwise return the
sequence unchanged. The index write `states[pos - 1] = state` is modelled by
`List.set`; `update_specific_stateChecked` below instruments the write with
its bounds check. -/
def App.update_specific_state (states : List State) (name : String) (state : State) :
    List State :=
  match ordinalOf name with
  | some pos =>
    if 0 < pos then
      let states' := if states.length < pos then resize states pos State.Inactive else states
      states'.set (pos - 1) state
    else states
  | none => states

/-- The same function with the panicking index write `states[pos - 1] = state`
made explicit: `none` models the aborting branch of out-of-bounds indexing. -/
def update_specific_stateChecked (states : List State) (name : String) (state : State) :
    Option (List State) :=
  match ordinalOf name with
  | some pos =>
    if 0 < pos then
      let states' := if states.length < pos then resize states pos State.Inactive else states
      if pos - 1 < states'.length then some (states'.set (pos - 1) state) else none
    else some states
  | none => some states

/-- The activity computed at main.rs lines 55-59: `Active` exactly when the
report's `state` string equals `"Active"`. -/
def activityOf (r : InterfaceState) : State :=
  if r.state = "Active" then State.Active else State.Inactive

/-- Mirror of `App::update_state` (main.rs lines 54-79): dispatch on
`interface_type` over the three known categories; any other value leaves the
clone of `self` untouched. -/
def App.update_state (app : App) (interface : InterfaceState) : App :=
  let state := activityOf interface
  let name := interface.name
  if interface.interface_type = "server" then
    { app with server_states := App.update_specific_state app.server_states name state }
  else if interface.interface_type = "publisher" then
    { app with publisher_states := App.update_specific_state app.publisher_states name state }
  else if interface.interface_type = "subscriber" then
    { app with subscriber_states := App.update_specific_state app.subscriber_states name state }
  else app

/-- The three `interface_type` values recognized by the dispatch. -/
def knownTypes : List String := ["server", "publisher", "subscriber"]

/-- The sequence of `app` that category `t` dispatches to (empty list for an
unknown category, which `App.update_state` never touches). -/
def states_of (t : String) (app : App) : List State :=
  if t = "server" then app.server_states
  else if t = "publisher" then app.publisher_states
  else if t = "subscriber" then app.subscriber_states
  else []

/-- Fold a finite report sequence into an `App`, applying `App.update_state`
in arrival order (the ingest loop applies one report per received message). -/
def applyAll (app : App) (rs : List InterfaceState) : App :=
  rs.foldl App.update_state app

/-- Maximum ordinal among the reports of `rs` that target category `t`
(0 when no report targets `t`). -/
def maxOrdinalFor (t : String) (rs : List InterfaceState) : Nat :=
  (rs.filter (fun r => r.interface_type = t)).foldr (fun r m => max (reportOrdinal r) m) 0

/-- Demonstration report sequence used to witness the claims about the fold. -/
def demoReports : List InterfaceState :=
  [⟨"server 3", "server", "Active"⟩,
   ⟨"server 2", "server", "Active"⟩,
   ⟨"publisher 1", "publisher", "Inactive"⟩]

/-- An `App` with populated sequences, for the frame and no-op witnesses. -/
def demoApp : App :=
  { server_states := [State.Inactive, State.Inactive, State.Active],
    publisher_states := [State.Active],
    subscriber_states := [] }

/-! Control-flow model of the ingest loop (`subscriber_callback`,
main.rs lines 149-167). One loop iteration receives either `some msg`
(a payload string) or `none` (the stream yielded no next item). The JSON
decoder `serde_json::from_str::<InterfaceState>` is an external library,
modelled as an arbitrary function `decode : String → Option InterfaceState`. -/

/-- Result of one iteration of the ingest loop body: the shared `App` after
the iteration, the log lines emitted, and whether control flow reaches the
next iteration. -/
structure IngestStepResult where
  app : App
  logs : List String
  continues : Bool
deriving DecidableEq, Repr

/-- One iteration of the `loop` in `subscriber_callback` (main.rs lines
153-166). On `some msg`: decode; on success overwrite the shared app with
`update_state`, on failure do nothing. On `none`: emit the `log_error!` line.
The Rust loop body contains no `break` or `return`, so every branch continues
to the next iteration. -/
def subscriber_callback_step (decode : String → Option InterfaceState)
    (item : Option String) (app : App) : IngestStepResult :=
  match item with
  | some msg =>
    match decode msg with
    | some interface_state => ⟨app.update_state interface_state, [], true⟩
    | none => ⟨app, [], true⟩
  | none => ⟨app, ["AGV 1 state subscriber did not get the message?"], true⟩

/-! Control-flow model of the render loop (`spawn_monitor`, main.rs lines
169-253) driven by a finite trace of input-poll outcomes, one per iteration. -/

/-- A key event's code: `KeyCode::Char(c)` or any other key code. -/
inductive Key where
  | char (c : Char)
  | other
deriving DecidableEq, Repr

/-- Outcome of one iteration's `event::poll(100ms)` / `event::read()` pair
(main.rs lines 239-245): the poll timed out, or a key event was read, or a
non-key event was read. -/
inductive PollResult where
  | timeout
  | keyEvent (k : Key)
  | otherEvent
deriving DecidableEq, Repr

/-- Observable outcome of running the render loop against an input trace:
how many frames were drawn, whether the loop exited via `break`, and how many
times the terminal restoration sequence (disable raw mode, leave alternate
screen, show cursor; main.rs lines 248-250) ran. -/
structure MonitorResult where
  draws : Nat
  exited : Bool
  cleanups : Nat
deriving DecidableEq, Repr

/-- The `loop` of `spawn_monitor`: each iteration draws one frame, then polls.
A `KeyCode::Char('q')` key event breaks out of the loop, after which the
restoration sequence runs once. Any other poll outcome loops back. If the
trace is exhausted the loop is still running (no exit, no restoration yet). -/
def monitor_loop : List PollResult → Nat → MonitorResult
  | [], draws => ⟨draws, false, 0⟩
  | p :: ps, draws =>
    match p with
    | PollResult.keyEvent (Key.char c) =>
      if c = 'q' then ⟨draws + 1, true, 1⟩ else monitor_loop ps (draws + 1)
    | _ => monitor_loop ps (draws + 1)

/-- Mirror of `spawn_monitor` (main.rs lines 169-253) on the happy path (no
terminal I/O error): run the render loop from zero drawn frames. -/
def spawn_monitor (trace : List PollResult) : MonitorResult :=
  monitor_loop trace 0

/-- The loop body of the thread `main` spawns and joins (main.rs lines
118-123) only calls `spin_once` and contains no `break` or `return`; no
iteration exits the loop. -/
def spin_iteration_exits_loop (_i : Nat) : Bool := false

/-- `main` (main.rs line 125) reaches its `Ok(())` — and the process its exit
status 0 — only if `handle.join()` returns, i.e. only if some iteration of
the spin thread's loop exits it. -/
def main_returns : Prop := ∃ i, spin_iteration_exits_loop i = true

/-! Lemmas about a single sequence under `App.update_specific_state`. -/

/-- A report whose ordinal extraction fails or yields 0 leaves the sequence
untouched. -/
theorem update_specific_noop (s : List State) (n : String) (st : State)
    (h : (ordinalOf n).getD 0 = 0) :
    App.update_specific_state s n st = s := by
  unfold App.update_specific_state
  cases hn : ordinalOf n with
  | none => rfl
  | some pos =>
    rw [hn] at h
    simp only [Option.getD_some] at h
    simp [h]

/-- Unfolding for the in-bounds case: a positive ordinal at most the current
length means no resize, just the slot write. -/
theorem update_specific_of_le (s : List State) (n : String) (st : State) (pos : Nat)
    (hn : ordinalOf n = some pos) (hp : 0 < pos) (hle : pos ≤ s.length) :
    App.update_specific_state s n st = s.set (pos - 1) st := by
  simp only [App.update_specific_state, hn]
  rw [if_pos hp, if_neg (by omega)]

/-- Unfolding for the growth case: an ordinal beyond the current length first
extends the sequence with `Inactive` up to the ordinal, then writes the slot. -/
theorem update_specific_of_gt (s : List State) (n : String) (st : State) (pos : Nat)
    (hn : ordinalOf n = some pos) (hgt : s.length < pos) :
    App.update_specific_state s n st =
      (s ++ List.replicate (pos - s.length) State.Inactive).set (pos - 1) st := by
  simp only [App.update_specific_state, hn]
  rw [if_pos (by omega), if_pos hgt]
  unfold resize
  rw [if_neg (by omega)]

/-- The updated sequence's length is the maximum of the old length and the
report's ordinal (with failed extraction counting as ordinal 0). -/
theorem length_update_specific (s : List State) (n : String) (st : State) :
    (App.update_specific_state s n st).length = max s.length ((ordinalOf n).getD 0) := by
  cases hn : ordinalOf n with
  | none =>
    rw [update_specific_noop s n st (by rw [hn]; rfl)]
    simp
  | some pos =>
    rcases Nat.eq_zero_or_pos pos with hp | hp
    · rw [update_specific_noop s n st (by rw [hn, hp]; rfl), hp]
      simp
    · rcases Nat.lt_or_ge s.length pos with hl | hl
      · rw [update_specific_of_gt s n st pos hn hl]
        simp only [List.length_set, List.length_append, List.length_replicate,
          Option.getD_some]
        omega
      · rw [update_specific_of_le s n st pos hn hp (by omega)]
        simp only [List.length_set, Option.getD_some]
        omega

/-- Slot-level description of the update: the written slot (when the ordinal
is positive) holds the new state, slots below the old length keep their old
value, freshly grown slots hold `Inactive`, everything past the new length is
out of bounds. -/
theorem getElem?_update_specific (s : List State) (n : String) (st : State) (i : Nat) :
    (App.update_specific_state s n st)[i]? =
      if 0 < (ordinalOf n).getD 0 ∧ i = (ordinalOf n).getD 0 - 1 then some st
      else if i < s.length then s[i]?
      else if i < (ordinalOf n).getD 0 then some State.Inactive
      else none := by
  cases hn : ordinalOf n with
  | none =>
    rw [update_specific_noop s n st (by rw [hn]; rfl)]
    simp only [Option.getD_none]
    rw [if_neg (by omega)]
    by_cases hi : i < s.length
    · rw [if_pos hi]
    · rw [if_neg hi, if_neg (by omega)]
      exact List.getElem?_eq_none (by omega)
  | some pos =>
    simp only [Option.getD_some]
    rcases Nat.eq_zero_or_pos pos with hp | hp
    · rw [update_specific_noop s n st (by rw [hn, hp]; rfl), hp]
      rw [if_neg (by omega)]
      by_cases hi : i < s.length
      · rw [if_pos hi]
      · rw [if_neg hi, if_neg (by omega)]
        exact List.getElem?_eq_none (by omega)
    · rcases Nat.lt_or_ge s.length pos with hl | hl
      · rw [update_specific_of_gt s n st pos hn hl]
        have hlen : (s ++ List.replicate (pos - s.length) State.Inactive).length = pos := by
          simp only [List.length_append, List.length_replicate]
          omega
        rw [List.getElem?_set]
        by_cases hi : i = pos - 1
        · rw [if_pos (show pos - 1 = i by omega),
            if_pos (show pos - 1 <
              (s ++ List.replicate (pos - s.length) State.Inactive).length by
                rw [hlen]; omega),
            if_pos (show 0 < pos ∧ i = pos - 1 from ⟨hp, hi⟩)]
        · rw [if_neg (show ¬ (pos - 1 = i) by omega),
            if_neg (show ¬ (0 < pos ∧ i = pos - 1) by omega),
            List.getElem?_append]
          by_cases hil : i < s.length
          · rw [if_pos hil, if_pos hil]
          · rw [if_neg hil, if_neg hil, List.getElem?_replicate]
            by_cases hip : i < pos
            · rw [if_pos (show i - s.length < pos - s.length by omega), if_pos hip]
            · rw [if_neg (show ¬ i - s.length < pos - s.length by omega), if_neg hip]
      · rw [update_specific_of_le s n st pos hn hp (by omega)]
        rw [List.getElem?_set]
        by_cases hi : i = pos - 1
        · rw [if_pos (show pos - 1 = i by omega),
            if_pos (show pos - 1 < s.length by omega),
            if_pos (show 0 < pos ∧ i = pos - 1 from ⟨hp, hi⟩)]
        · rw [if_neg (show ¬ (pos - 1 = i) by omega),
            if_neg (show ¬ (0 < pos ∧ i = pos - 1) by omega)]
          by_cases hil : i < s.length
          · rw [if_pos hil]
          · rw [if_neg hil, if_neg (show ¬ i < pos by omega)]
            exact List.getElem?_eq_none (by omega)

/-- Applying the very same report twice to a sequence is the same as applying
it once. -/
theorem update_specific_idem (s : List State) (n : String) (st : State) :
    App.update_specific_state (App.update_specific_state s n st) n st =
      App.update_specific_state s n st := by
  cases hn : ordinalOf n with
  | none =>
    rw [update_specific_noop s n st (by rw [hn]; rfl),
      update_specific_noop s n st (by rw [hn]; rfl)]
  | some pos =>
    rcases Nat.eq_zero_or_pos pos with hp | hp
    · rw [update_specific_noop s n st (by rw [hn, hp]; rfl),
        update_specific_noop s n st (by rw [hn, hp]; rfl)]
    · have hlen : pos ≤ (App.update_specific_state s n st).length := by
        rw [length_update_specific, hn]
        simp only [Option.getD_some]
        omega
      rw [update_specific_of_le (App.update_specific_state s n st) n st pos hn hp hlen]
      rcases Nat.lt_or_ge s.length pos with hl | hl
      · rw [update_specific_of_gt s n st pos hn hl, List.set_set]
      · rw [update_specific_of_le s n st pos hn hp (by omega), List.set_set]

/-! Lemmas about `App.update_state` seen through `states_of`. -/

/-- Dispatch lemma: for a known category `t`, `App.update_state` rewrites
`t`'s sequence exactly when the report's `interface_type` is `t`, and leaves
it untouched otherwise. -/
theorem states_of_update_state (app : App) (r : InterfaceState) (t : String)
    (ht : t ∈ knownTypes) :
    states_of t (app.update_state r) =
      if r.interface_type = t then
        App.update_specific_state (states_of t app) r.name (activityOf r)
      else states_of t app := by
  simp only [knownTypes, List.mem_cons, List.not_mem_nil, or_false] at ht
  unfold App.update_state states_of
  rcases ht with rfl | rfl | rfl
  · by_cases h1 : r.interface_type = "server"
    · simp [h1]
    · by_cases h2 : r.interface_type = "publisher" <;>
        by_cases h3 : r.interface_type = "subscriber" <;>
        simp [h1, h2, h3]
  · by_cases h2 : r.interface_type = "publisher"
    · have h1 : ¬ r.interface_type = "server" := by rw [h2]; decide
      simp [h1, h2]
    · by_cases h1 : r.interface_type = "server" <;>
        by_cases h3 : r.interface_type = "subscriber" <;>
        simp [h1, h2, h3]
  · by_cases h3 : r.interface_type = "subscriber"
    · have h1 : ¬ r.interface_type = "server" := by rw [h3]; decide
      have h2 : ¬ r.interface_type = "publisher" := by rw [h3]; decide
      simp [h1, h2, h3]
    · by_cases h1 : r.interface_type = "server" <;>
        by_cases h2 : r.interface_type = "publisher" <;>
        simp [h1, h2, h3]

/-- A report with an unknown `interface_type` or without a positive ordinal
leaves the whole `App` untouched. -/
theorem update_state_noop (app : App) (r : InterfaceState)
    (h : (ordinalOf r.name).getD 0 = 0 ∨ r.interface_type ∉ knownTypes) :
    app.update_state r = app := by
  rcases h with h | h
  · simp only [App.update_state]
    split_ifs
    · rw [update_specific_noop _ _ _ h]
    · rw [update_specific_noop _ _ _ h]
    · rw [update_specific_noop _ _ _ h]
    · rfl
  · simp only [knownTypes, List.mem_cons, List.not_mem_nil, or_false, not_or] at h
    simp only [App.update_state]
    rw [if_neg h.1, if_neg h.2.1, if_neg h.2.2]

/-- The three sequences of an `App` determine it: two apps agreeing on
`states_of` at the three known categories are equal. -/
theorem app_eq_of_states_of (a b : App)
    (h : ∀ t ∈ knownTypes, states_of t a = states_of t b) : a = b := by
  have hs := h "server" (by simp [knownTypes])
  have hp := h "publisher" (by simp [knownTypes])
  have hb := h "subscriber" (by simp [knownTypes])
  simp only [states_of] at hs hp hb
  cases a
  cases b
  simp_all

/-- Length of a category's sequence after folding a report list: the maximum
of the starting length and every ordinal reported for that category. -/
theorem length_states_of_applyAll (t : String) (ht : t ∈ knownTypes)
    (rs : List InterfaceState) (app : App) :
    (states_of t (applyAll app rs)).length =
      max (states_of t app).length (maxOrdinalFor t rs) := by
  induction rs generalizing app with
  | nil => simp [applyAll, maxOrdinalFor]
  | cons r rest ih =>
    have hstep : applyAll app (r :: rest) = applyAll (app.update_state r) rest := rfl
    rw [hstep, ih]
    rw [states_of_update_state app r t ht]
    by_cases hr : r.interface_type = t
    · rw [if_pos hr, length_update_specific]
      have hm : maxOrdinalFor t (r :: rest) =
          max (reportOrdinal r) (maxOrdinalFor t rest) := by
        simp [maxOrdinalFor, List.filter_cons, hr]
      rw [hm]
      unfold reportOrdinal
      omega
    · rw [if_neg hr]
      have hm : maxOrdinalFor t (r :: rest) = maxOrdinalFor t rest := by
        simp [maxOrdinalFor, List.filter_cons, hr]
      rw [hm]

theorem states_of_server (app : App) : states_of "server" app = app.server_states := rfl

theorem states_of_publisher (app : App) :
    states_of "publisher" app = app.publisher_states := rfl

theorem states_of_subscriber (app : App) :
    states_of "subscriber" app = app.subscriber_states := rfl

theorem states_of_new (t : String) : states_of t App.new = [] := by
  unfold states_of App.new
  split_ifs <;> rfl

/-- An ordinal reported for category `t` is at most the maximum ordinal
reported for `t`. -/
theorem reportOrdinal_le_maxOrdinalFor (t : String) (rs : List InterfaceState)
    (r : InterfaceState) (hr : r ∈ rs) (ht : r.interface_type = t) :
    reportOrdinal r ≤ maxOrdinalFor t rs := by
  induction rs with
  | nil => cases hr
  | cons x rest ih =>
    have hcons : maxOrdinalFor t (x :: rest) =
        if x.interface_type = t then max (reportOrdinal x) (maxOrdinalFor t rest)
        else maxOrdinalFor t rest := by
      by_cases hx : x.interface_type = t <;> simp [maxOrdinalFor, List.filter_cons, hx]
    rcases List.mem_cons.mp hr with rfl | hmem
    · rw [hcons, if_pos ht]
      exact Nat.le_max_left _ _
    · have hle := ih hmem
      rw [hcons]
      by_cases hx : x.interface_type = t
      · rw [if_pos hx]
        exact le_trans hle (Nat.le_max_right _ _)
      · rw [if_neg hx]
        exact hle

/-- A slot that no report of `rs` writes cannot turn `Active` during the fold. -/
theorem unwritten_slot_not_active (t : String) (ht : t ∈ knownTypes)
    (rs : List InterfaceState) (app : App) (i : Nat)
    (happ : ¬ (states_of t app)[i]? = some State.Active)
    (hrs : ∀ r ∈ rs, ¬ (r.interface_type = t ∧ reportOrdinal r = i + 1)) :
    ¬ (states_of t (applyAll app rs))[i]? = some State.Active := by
  induction rs generalizing app with
  | nil => exact happ
  | cons r rest ih =>
    have hstep : applyAll app (r :: rest) = applyAll (app.update_state r) rest := rfl
    rw [hstep]
    apply ih (app.update_state r) ?_ (fun x hx => hrs x (List.mem_cons_of_mem r hx))
    rw [states_of_update_state app r t ht]
    by_cases hr : r.interface_type = t
    · rw [if_pos hr, getElem?_update_specific]
      have hord : ¬ reportOrdinal r = i + 1 := fun hh => hrs r (by simp) ⟨hr, hh⟩
      simp only [reportOrdinal] at hord
      split_ifs with h1 h2 h3
      · exact absurd (by omega) hord
      · exact happ
      · simp
      · simp
    · rw [if_neg hr]
      exact happ

/-! The claims. -/

/-- Claim C1: folding any finite sequence of reports with known categories
and positive parsed ordinals into the empty `App` leaves each category's
sequence with length equal to the maximum ordinal reported for that category
(0 when no report targeted it). -/
theorem C1_lengths_eq_max_ordinals (rs : List InterfaceState)
    (_h : ∀ r ∈ rs, r.interface_type ∈ knownTypes ∧ 0 < reportOrdinal r) :
    (applyAll App.new rs).server_states.length = maxOrdinalFor "server" rs
    ∧ (applyAll App.new rs).publisher_states.length = maxOrdinalFor "publisher" rs
    ∧ (applyAll App.new rs).subscriber_states.length = maxOrdinalFor "subscriber" rs := by
  refine ⟨?_, ?_, ?_⟩
  · have hl := length_states_of_applyAll "server" (by simp [knownTypes]) rs App.new
    rw [states_of_server, states_of_server] at hl
    simp only [App.new] at hl
    simpa using hl
  · have hl := length_states_of_applyAll "publisher" (by simp [knownTypes]) rs App.new
    rw [states_of_publisher, states_of_publisher] at hl
    simp only [App.new] at hl
    simpa using hl
  · have hl := length_states_of_applyAll "subscriber" (by simp [knownTypes]) rs App.new
    rw [states_of_subscriber, states_of_subscriber] at hl
    simp only [App.new] at hl
    simpa using hl

/-- Witness for C1 at a concrete report sequence. -/
theorem C1_witness :
    (∀ r ∈ demoReports, r.interface_type ∈ knownTypes ∧ 0 < reportOrdinal r)
    ∧ ((applyAll App.new demoReports).server_states.length = maxOrdinalFor "server" demoReports
      ∧ (applyAll App.new demoReports).publisher_states.length =
          maxOrdinalFor "publisher" demoReports
      ∧ (applyAll App.new demoReports).subscriber_states.length =
          maxOrdinalFor "subscriber" demoReports) :=
  ⟨by decide, C1_lengths_eq_max_ordinals demoReports (by decide)⟩

/-- Claim C2 as stated is false on the code: when the stream yields no item
(`next()` returned `None`), the loop body of `subscriber_callback` logs and
then control flow reaches the next iteration — there is no `break` or
`return`, so the loop does not terminate. -/
theorem C2_counterexample :
    ¬ (subscriber_callback_step (fun _ => none) none App.new).continues = false := by
  decide

/-- Claim C2 (amended): when the stream yields no next item, the ingest loop
logs the condition, leaves the table unchanged, and keeps iterating (the loop
body has no exit path). -/
theorem C2_amended (decode : String → Option InterfaceState) (app : App) :
    subscriber_callback_step decode none app =
      ⟨app, ["AGV 1 state subscriber did not get the message?"], true⟩ := rfl

/-- Auxiliary run of the render loop: a trace of non-quit poll outcomes
followed by the quit keystroke draws one frame per processed iteration, exits,
and runs the restoration sequence exactly once. -/
theorem monitor_loop_append_quit (pre post : List PollResult) (d : Nat)
    (hpre : ∀ p ∈ pre, p ≠ PollResult.keyEvent (Key.char 'q')) :
    monitor_loop (pre ++ PollResult.keyEvent (Key.char 'q') :: post) d =
      ⟨d + pre.length + 1, true, 1⟩ := by
  induction pre generalizing d with
  | nil => simp [monitor_loop]
  | cons p ps ih =>
    have hps : ∀ x ∈ ps, x ≠ PollResult.keyEvent (Key.char 'q') :=
      fun x hx => hpre x (List.mem_cons_of_mem p hx)
    have hp : p ≠ PollResult.keyEvent (Key.char 'q') := hpre p (by simp)
    cases p with
    | timeout =>
      rw [List.cons_append]
      show monitor_loop (ps ++ PollResult.keyEvent (Key.char 'q') :: post) (d + 1) = _
      rw [ih (d + 1) hps]
      have : d + 1 + ps.length + 1 = d + (ps.length + 1) + 1 := by omega
      rw [this]
      rfl
    | otherEvent =>
      rw [List.cons_append]
      show monitor_loop (ps ++ PollResult.keyEvent (Key.char 'q') :: post) (d + 1) = _
      rw [ih (d + 1) hps]
      have : d + 1 + ps.length + 1 = d + (ps.length + 1) + 1 := by omega
      rw [this]
      rfl
    | keyEvent k =>
      cases k with
      | other =>
        rw [List.cons_append]
        show monitor_loop (ps ++ PollResult.keyEvent (Key.char 'q') :: post) (d + 1) = _
        rw [ih (d + 1) hps]
        have : d + 1 + ps.length + 1 = d + (ps.length + 1) + 1 := by omega
        rw [this]
        rfl
      | char c =>
        have hc : ¬ c = 'q' := fun h => hp (by rw [h])
        rw [List.cons_append]
        show (if c = 'q' then MonitorResult.mk (d + 1) true 1
          else monitor_loop (ps ++ PollResult.keyEvent (Key.char 'q') :: post) (d + 1)) = _
        rw [if_neg hc, ih (d + 1) hps]
        have : d + 1 + ps.length + 1 = d + (ps.length + 1) + 1 := by omega
        rw [this]
        rfl

/-- Claim C3 as stated is false on the code: with the quit keystroke as the
only input event, the render loop does exit and the restoration sequence runs
exactly once, but the process does not exit — `main` blocks joining the spin
thread, whose loop body never exits, so `main` never reaches `Ok(())`. -/
theorem C3_counterexample :
    (spawn_monitor [PollResult.keyEvent (Key.char 'q')]).exited = true
    ∧ (spawn_monitor [PollResult.keyEvent (Key.char 'q')]).cleanups = 1
    ∧ ¬ main_returns := by
  refine ⟨rfl, rfl, ?_⟩
  rintro ⟨i, hi⟩
  simp [spin_iteration_exits_loop] at hi

/-- Claim C3 (amended): when the render loop observes the quit keystroke it
exits and the terminal restoration sequence executes exactly once, but the
process does not exit with status 0: `main` joins a thread that loops
unconditionally, so it never returns. -/
theorem C3_amended (pre post : List PollResult)
    (hpre : ∀ p ∈ pre, p ≠ PollResult.keyEvent (Key.char 'q')) :
    spawn_monitor (pre ++ PollResult.keyEvent (Key.char 'q') :: post) =
      ⟨pre.length + 1, true, 1⟩
    ∧ ¬ main_returns := by
  constructor
  · unfold spawn_monitor
    rw [monitor_loop_append_quit pre post 0 hpre]
    rw [Nat.zero_add]
  · rintro ⟨i, hi⟩
    simp [spin_iteration_exits_loop] at hi

/-- Witness for C3 (amended) at a concrete input trace. -/
theorem C3_witness :
    (∀ p ∈ [PollResult.timeout], p ≠ PollResult.keyEvent (Key.char 'q'))
    ∧ (spawn_monitor ([PollResult.timeout] ++ PollResult.keyEvent (Key.char 'q') :: []) =
        ⟨2, true, 1⟩
      ∧ ¬ main_returns) :=
  ⟨by decide, C3_amended [PollResult.timeout] [] (by decide)⟩

/-- Claim C4: a report whose trailing name token parses to 0, or does not
parse at all, or whose `interface_type` is none of the three known
categories, leaves the `App` observably unchanged. -/
theorem C4_invalid_report_noop (app : App) (r : InterfaceState)
    (h : ordinalOf r.name = some 0 ∨ ordinalOf r.name = none
      ∨ r.interface_type ∉ knownTypes) :
    app.update_state r = app := by
  apply update_state_noop
  rcases h with h | h | h
  · left
    rw [h]
    rfl
  · left
    rw [h]
    rfl
  · right
    exact h

/-- Witness for C4 at a concrete report with an unparsable trailing token. -/
theorem C4_witness :
    (ordinalOf "server abc" = some 0 ∨ ordinalOf "server abc" = none
      ∨ "server" ∉ knownTypes)
    ∧ demoApp.update_state ⟨"server abc", "server", "Active"⟩ = demoApp :=
  ⟨by decide, C4_invalid_report_noop demoApp ⟨"server abc", "server", "Active"⟩ (by decide)⟩

/-- Claim C5: a payload on which the JSON decoder fails leaves the table
unchanged, logs nothing, and the ingest loop continues to the next message. -/
theorem C5_decode_failure_noop (decode : String → Option InterfaceState)
    (msg : String) (app : App) (h : decode msg = none) :
    subscriber_callback_step decode (some msg) app = ⟨app, [], true⟩ := by
  simp [subscriber_callback_step, h]

/-- Witness for C5 at a concrete malformed payload. -/
theorem C5_witness :
    ((fun _ : String => (none : Option InterfaceState)) "not json" = none)
    ∧ subscriber_callback_step (fun _ => none) (some "not json") App.new =
        ⟨App.new, [], true⟩ :=
  ⟨rfl, C5_decode_failure_noop (fun _ => none) "not json" App.new rfl⟩

/-- Claim C6: for every known category, (1) after folding any report list
from the empty `App`, the sequence length is at least every ordinal reported
for that category; (2) one update never shrinks the sequence; (3) the
sequence grows only when the report targets the category with an ordinal
exceeding the current length, and then grows to exactly that ordinal; (4) a
slot within bounds that no report of the fold wrote holds `Inactive`. -/
theorem C6_invariants (t : String) (ht : t ∈ knownTypes) (rs : List InterfaceState) :
    (∀ r ∈ rs, r.interface_type = t →
      reportOrdinal r ≤ (states_of t (applyAll App.new rs)).length)
    ∧ (∀ (app : App) (r : InterfaceState),
        (states_of t app).length ≤ (states_of t (app.update_state r)).length)
    ∧ (∀ (app : App) (r : InterfaceState),
        (states_of t app).length < (states_of t (app.update_state r)).length →
          r.interface_type = t
          ∧ (states_of t app).length < reportOrdinal r
          ∧ (states_of t (app.update_state r)).length = reportOrdinal r)
    ∧ (∀ i, i < (states_of t (applyAll App.new rs)).length →
        (∀ r ∈ rs, ¬ (r.interface_type = t ∧ reportOrdinal r = i + 1)) →
        (states_of t (applyAll App.new rs))[i]? = some State.Inactive) := by
  refine ⟨?_, ?_, ?_, ?_⟩
  · intro r hr htype
    rw [length_states_of_applyAll t ht rs App.new, states_of_new]
    have := reportOrdinal_le_maxOrdinalFor t rs r hr htype
    simp only [List.length_nil]
    omega
  · intro app r
    rw [states_of_update_state app r t ht]
    by_cases hr : r.interface_type = t
    · rw [if_pos hr, length_update_specific]
      exact Nat.le_max_left _ _
    · rw [if_neg hr]
  · intro app r hgrow
    rw [states_of_update_state app r t ht] at hgrow ⊢
    by_cases hr : r.interface_type = t
    · rw [if_pos hr, length_update_specific] at hgrow ⊢
      simp only [reportOrdinal]
      exact ⟨hr, by omega, by omega⟩
    · rw [if_neg hr] at hgrow
      omega
  · intro i hi hnever
    have hact := unwritten_slot_not_active t ht rs App.new i
      (by rw [states_of_new]; simp) hnever
    have hsome := List.getElem?_eq_getElem hi
    rcases hv : (states_of t (applyAll App.new rs))[i] with _ | _
    · rw [hv] at hsome
      exact absurd hsome hact
    · rw [hv] at hsome
      exact hsome

/-- Witness for C6 at category `"server"` and a concrete report list. -/
theorem C6_witness :
    ("server" ∈ knownTypes)
    ∧ reportOrdinal ⟨"server 3", "server", "Active"⟩ ≤
        (states_of "server" (applyAll App.new demoReports)).length :=
  ⟨by decide,
    (C6_invariants "server" (by decide) demoReports).1
      ⟨"server 3", "server", "Active"⟩ (by decide) rfl⟩

/-- Claim C7: a report with a known category whose parsed ordinal `m` exceeds
the target sequence's current length grows the sequence to exactly length
`m`, fills the fresh slots below `m - 1` with `Inactive`, and sets slot
`m - 1` to `Active` exactly when the report's `state` string equals
`"Active"` (case-sensitively), and to `Inactive` otherwise. -/
theorem C7_growth (app : App) (r : InterfaceState) (m : Nat)
    (ht : r.interface_type ∈ knownTypes)
    (hm : ordinalOf r.name = some m)
    (hgt : (states_of r.interface_type app).length < m) :
    (states_of r.interface_type (app.update_state r)).length = m
    ∧ (∀ i, (states_of r.interface_type app).length ≤ i → i < m - 1 →
        (states_of r.interface_type (app.update_state r))[i]? = some State.Inactive)
    ∧ (states_of r.interface_type (app.update_state r))[m - 1]? =
        some (if r.state = "Active" then State.Active else State.Inactive) := by
  have hdisp := states_of_update_state app r r.interface_type ht
  rw [if_pos rfl] at hdisp
  refine ⟨?_, ?_, ?_⟩
  · rw [hdisp, length_update_specific, hm]
    simp only [Option.getD_some]
    omega
  · intro i hlo hhi
    rw [hdisp, getElem?_update_specific, hm]
    simp only [Option.getD_some]
    rw [if_neg (show ¬ (0 < m ∧ i = m - 1) by omega),
      if_neg (show ¬ i < (states_of r.interface_type app).length by omega),
      if_pos (show i < m by omega)]
  · rw [hdisp, getElem?_update_specific, hm]
    simp only [Option.getD_some, and_true]
    rw [if_pos (show 0 < m by omega)]
    rfl

/-- Witness for C7: growing the empty server sequence to length 3. -/
theorem C7_witness :
    (("server" : String) ∈ knownTypes)
    ∧ ordinalOf "server 3" = some 3
    ∧ (states_of "server" App.new).length < 3
    ∧ ((states_of "server" (App.new.update_state ⟨"server 3", "server", "Active"⟩)).length = 3
      ∧ (∀ i, (states_of "server" App.new).length ≤ i → i < 3 - 1 →
          (states_of "server"
            (App.new.update_state ⟨"server 3", "server", "Active"⟩))[i]? =
            some State.Inactive)
      ∧ (states_of "server" (App.new.update_state ⟨"server 3", "server", "Active"⟩))[3 - 1]? =
          some (if "Active" = "Active" then State.Active else State.Inactive)) :=
  ⟨by decide, by decide, by decide,
    C7_growth App.new ⟨"server 3", "server", "Active"⟩ 3 (by decide) (by decide) (by decide)⟩

/-- Claim C8: applying the same report twice yields the same table as
applying it once. -/
theorem C8_idempotent (app : App) (r : InterfaceState) :
    (app.update_state r).update_state r = app.update_state r := by
  apply app_eq_of_states_of
  intro t ht
  rw [states_of_update_state (app.update_state r) r t ht,
    states_of_update_state app r t ht]
  by_cases hr : r.interface_type = t
  · rw [if_pos hr, if_pos hr]
    exact update_specific_idem _ _ _
  · rw [if_neg hr, if_neg hr]

/-- Claim C9: a report with a known category and a parsed ordinal `k` within
the current length changes at most slot `k - 1` of that category's sequence:
the length is unchanged, every other slot keeps its value, and the sequences
of the other categories are untouched. -/
theorem C9_frame (app : App) (r : InterfaceState) (k : Nat)
    (ht : r.interface_type ∈ knownTypes)
    (hk : ordinalOf r.name = some k)
    (hle : k ≤ (states_of r.interface_type app).length) :
    (states_of r.interface_type (app.update_state r)).length =
      (states_of r.interface_type app).length
    ∧ (∀ i, i ≠ k - 1 →
        (states_of r.interface_type (app.update_state r))[i]? =
          (states_of r.interface_type app)[i]?)
    ∧ (∀ t ∈ knownTypes, t ≠ r.interface_type →
        states_of t (app.update_state r) = states_of t app) := by
  have hdisp := states_of_update_state app r r.interface_type ht
  rw [if_pos rfl] at hdisp
  refine ⟨?_, ?_, ?_⟩
  · rw [hdisp, length_update_specific, hk]
    simp only [Option.getD_some]
    omega
  · intro i hi
    rw [hdisp, getElem?_update_specific, hk]
    simp only [Option.getD_some]
    rw [if_neg (show ¬ (0 < k ∧ i = k - 1) from fun hc => hi hc.2)]
    by_cases hil : i < (states_of r.interface_type app).length
    · rw [if_pos hil]
    · rw [if_neg hil, if_neg (show ¬ i < k by omega)]
      exact (List.getElem?_eq_none (by omega)).symm
  · intro t htk htne
    rw [states_of_update_state app r t htk,
      if_neg (show ¬ r.interface_type = t from fun hh => htne hh.symm)]

/-- Witness for C9: overwriting server slot 2 of a populated app. -/
theorem C9_witness :
    (("server" : String) ∈ knownTypes)
    ∧ ordinalOf "server 2" = some 2
    ∧ 2 ≤ (states_of "server" demoApp).length
    ∧ (states_of "server" (demoApp.update_state ⟨"server 2", "server", "Active"⟩)).length =
        (states_of "server" demoApp).length
    ∧ (states_of "server" (demoApp.update_state ⟨"server 2", "server", "Active"⟩))[0]? =
        (states_of "server" demoApp)[0]?
    ∧ states_of "publisher" (demoApp.update_state ⟨"server 2", "server", "Active"⟩) =
        states_of "publisher" demoApp :=
  ⟨by decide, by decide, by decide,
    (C9_frame demoApp ⟨"server 2", "server", "Active"⟩ 2 (by decide) (by decide) (by decide)).1,
    (C9_frame demoApp ⟨"server 2", "server", "Active"⟩ 2 (by decide) (by decide)
      (by decide)).2.1 0 (by decide),
    (C9_frame demoApp ⟨"server 2", "server", "Active"⟩ 2 (by decide) (by decide)
      (by decide)).2.2 "publisher" (by decide) (by decide)⟩

/-- Claim C10: the sequence update is total: the slot write at index
`pos - 1` is always in bounds (the instrumented variant never reaches the
out-of-bounds branch), and a name with no whitespace-separated token leaves
the sequence unchanged. -/
theorem C10_write_in_bounds (states : List State) (name : String) (st : State) :
    update_specific_stateChecked states name st =
      some (App.update_specific_state states name st)
    ∧ (splitWhitespace name = [] → App.update_specific_state states name st = states) := by
  constructor
  · cases hn : ordinalOf name with
    | none => simp only [update_specific_stateChecked, App.update_specific_state, hn]
    | some pos =>
      simp only [update_specific_stateChecked, App.update_specific_state, hn]
      rcases Nat.eq_zero_or_pos pos with hp | hp
      · rw [if_neg (show ¬ 0 < pos by omega), if_neg (show ¬ 0 < pos by omega)]
      · rw [if_pos hp, if_pos hp]
        rcases Nat.lt_or_ge states.length pos with hl | hl
        · rw [if_pos hl,
            if_pos (show pos - 1 < (resize states pos State.Inactive).length by
              unfold resize
              rw [if_neg (by omega)]
              simp only [List.length_append, List.length_replicate]
              omega)]
        · rw [if_neg (show ¬ states.length < pos by omega),
            if_pos (show pos - 1 < states.length by omega)]
  · intro hws
    apply update_specific_noop
    have hnone : ordinalOf name = none := by
      show (splitWhitespace name).getLast?.bind parseUsize = none
      rw [hws]
      rfl
    rw [hnone]
    rfl

/-- Witness for C10 at an all-whitespace name. -/
theorem C10_witness :
    splitWhitespace "  " = []
    ∧ update_specific_stateChecked [] "  " State.Active =
        some (App.update_specific_state [] "  " State.Active)
    ∧ App.update_specific_state [] "  " State.Active = [] :=
  ⟨by decide, (C10_write_in_bounds [] "  " State.Active).1,
    (C10_write_in_bounds [] "  " State.Active).2 (by decide)⟩

end TuiStateMonitor
